import Mathlib

/-!
# PowerTOP for Windows: command-line scanning and the perf event pump

Shallow embedding of
* `src/platform/windows/getopt_win.h` (`getopt_internal`, `getopt`, `getopt_long`), and
* `src/perf/perf.h` (class `perf_event`, both the Linux declaration and the Windows stub).
-/

namespace GetoptWin

/-- A C string, given by the characters that precede its terminating NUL.  A `char *` that
points into a string is modelled by the remaining characters from that position on, and
reading the terminator at index `i` is `s[i]? = none`. -/
abbrev CStr := List Char

/-- The value of a character converted to `int`. -/
def char_code (c : Char) : Int := (c.toNat : Int)

def no_argument : Int := 0
def required_argument : Int := 1
def optional_argument : Int := 2

/-- The long option descriptor `struct option`; `flag` is `none` for a NULL pointer and
`some p` for the address `p` of an `int`. -/
structure option where
  name : CStr
  has_arg : Int
  flag : Option Nat
  val : Int

/-- The variables that survive a call: the four getopt globals, the two function-local
statics of `getopt_internal`, the text written to `stderr`, and the `int` cells that the
pointers `longindex` and `flag` may address. -/
structure Globals where
  optarg : Option CStr
  optind : Int
  opterr : Int
  optopt : Int
  nextchar : Option CStr
  optreset : Int
  stderr : List CStr
  mem : Nat → Int

/-- The initial values given by the definitions in the header. -/
def initial : Globals where
  optarg := none
  optind := 1
  opterr := 1
  optopt := char_code '?'
  nextchar := none
  optreset := 0
  stderr := []
  mem := fun _ => 0

/-- Reading `argv[i]`: `none` when the index lies outside the array (undefined in C),
`some none` for a NULL element. -/
def argv_at (argv : List (Option CStr)) (i : Int) : Option (Option CStr) :=
  if 0 ≤ i then argv[i.toNat]? else none

/-- The library function `strchr` for a character other than NUL: the suffix that starts
at the first occurrence of `c`, or `none` (NULL) when there is none. -/
def strchr : CStr → Char → Option CStr
  | [], _ => none
  | x :: xs, c => if x = c then some (x :: xs) else strchr xs c

/-- The library call `strncmp(a, b, n) == 0`. -/
def strncmp_eq (a b : CStr) (n : Nat) : Bool := decide (a.take n = b.take n)

/-- The test in the body of the `for` loop over `longopts` (lines 96-99): the name of
`lo` begins `arg_start` and is followed there by the terminator or by `=`. -/
def name_matches (arg_start : CStr) (lo : option) : Bool :=
  let nlen := lo.name.length
  strncmp_eq arg_start lo.name nlen &&
    (decide (arg_start[nlen]? = none) || decide (arg_start[nlen]? = some '='))

/-- The `for` loop over `longopts` (lines 95-104): the first entry that passes the test,
with its index.  The list holds the entries before the one with a NULL name. -/
def find_match (arg_start : CStr) : List option → Int → Option (option × Int)
  | [], _ => none
  | lo :: rest, idx =>
    if name_matches arg_start lo = true then some (lo, idx)
    else find_match arg_start rest (idx + 1)

/-- The line feed that ends each message. -/
def newline : Char := Char.ofNat 10

/-- Writing a line to `stderr` when `opterr` is set. -/
def report (g : Globals) (msg : CStr) : Globals :=
  if g.opterr ≠ 0 then { g with stderr := g.stderr ++ [msg] } else g

/-- The long option block of `getopt_internal` (lines 88-132), entered with
`argv[optind] = arg`. -/
def long_option (argc : Int) (argv : List (Option CStr)) (lopts : List option)
    (longindex : Option Nat) (arg : CStr) (g : Globals) : Option (Int × Globals) :=
  let arg_start := arg.drop 2
  let found := find_match arg_start lopts 0
  let g := { g with optind := g.optind + 1, nextchar := none }
  match found with
  | none => some (char_code '?', report g ("Unknown option: ".toList ++ arg ++ [newline]))
  | some (m, match_idx) =>
    let g := match longindex with
      | some p => { g with mem := Function.update g.mem p match_idx }
      | none => g
    let withArg : Option Globals :=
      if m.has_arg = required_argument ∨ m.has_arg = optional_argument then
        match strchr arg_start '=' with
        | some eq => some { g with optarg := some (eq.drop 1) }
        | none =>
          if m.has_arg = required_argument ∧ g.optind < argc then
            match argv_at argv g.optind with
            | none => none
            | some a => some { g with optarg := a, optind := g.optind + 1 }
          else some { g with optarg := none }
      else some g
    match withArg with
    | none => none
    | some g =>
      match m.flag with
      | some p => some (0, { g with mem := Function.update g.mem p m.val })
      | none => some (m.val, g)

/-- The short option block of `getopt_internal` (lines 137-169). -/
def short_option (argc : Int) (argv : List (Option CStr)) (optstring : CStr)
    (g : Globals) : Option (Int × Globals) :=
  match g.nextchar with
  | some (c :: rest) =>
    let g := { g with nextchar := some rest }
    match strchr optstring c with
    | none =>
      some (char_code '?',
        report { g with optopt := char_code c } ("Unknown option: -".toList ++ [c, newline]))
    | some spec =>
      if spec[1]? = some ':' then
        if rest ≠ [] then
          some (char_code c, { g with optarg := some rest, nextchar := none })
        else if spec[2]? = some ':' then
          some (char_code c, { g with optarg := none })
        else if g.optind < argc then
          match argv_at argv g.optind with
          | none => none
          | some a => some (char_code c, { g with optarg := a, optind := g.optind + 1 })
        else
          some (if optstring[0]? = some ':' then char_code ':' else char_code '?',
            report { g with optopt := char_code c }
              ("Option -".toList ++ [c] ++ " requires an argument".toList ++ [newline]))
      else some (char_code c, { g with optarg := none })
  | _ => none

/-- The function `getopt_internal`.  The result is `none` when the C code would read
outside `argv`; otherwise it is the returned `int` and the variables after the call. -/
def getopt_internal (argc : Int) (argv : List (Option CStr)) (optstring : CStr)
    (longopts : Option (List option)) (longindex : Option Nat) (_long_only : Int)
    (g : Globals) : Option (Int × Globals) :=
  if g.optreset ≠ 0 ∨ g.nextchar = none ∨ g.nextchar = some [] then
    let g := { g with optreset := 0 }
    if g.optind ≥ argc then some (-1, { g with nextchar := none })
    else
      match argv_at argv g.optind with
      | none => none
      | some none => some (-1, { g with nextchar := none })
      | some (some arg) =>
        if arg[0]? ≠ some '-' ∨ arg[1]? = none then
          some (-1, { g with nextchar := none })
        else if arg[1]? = some '-' ∧ arg[2]? = none then
          some (-1, { g with optind := g.optind + 1, nextchar := none })
        else
          match longopts with
          | some lopts =>
            if arg[1]? = some '-' then long_option argc argv lopts longindex arg g
            else
              short_option argc argv optstring
                { g with nextchar := some (arg.drop 1), optind := g.optind + 1 }
          | none =>
            short_option argc argv optstring
              { g with nextchar := some (arg.drop 1), optind := g.optind + 1 }
  else short_option argc argv optstring g

def getopt (argc : Int) (argv : List (Option CStr)) (optstring : CStr)
    (g : Globals) : Option (Int × Globals) :=
  getopt_internal argc argv optstring none none 0 g

def getopt_long (argc : Int) (argv : List (Option CStr)) (optstring : CStr)
    (longopts : Option (List option)) (longindex : Option Nat)
    (g : Globals) : Option (Int × Globals) :=
  getopt_internal argc argv optstring longopts longindex 0 g

/-- An option cluster is pending: the next call continues inside the current `argv`
element (the negation of the test on line 71). -/
def cluster_pending (g : Globals) : Prop :=
  ¬ (g.optreset ≠ 0 ∨ g.nextchar = none ∨ g.nextchar = some [])

instance (g : Globals) : Decidable (cluster_pending g) := by
  unfold cluster_pending
  infer_instance

end GetoptWin

namespace Perf

/-- Modelled from the spec: the fixed record header of the wire format in section 6,
`type: u32, misc: u16, size: u16` (the kernel's `struct perf_event_header`, which this
repository only names). -/
structure perf_event_header where
  type : Nat
  misc : Nat
  size : Nat
  deriving DecidableEq, Repr

/-- Modelled from the spec: the ControlPage of section 3 (the kernel's
`struct perf_event_mmap_page`, which this repository only names), with the write cursor
`data_head` and the read cursor `data_tail`, both byte counts that only grow. -/
structure perf_event_mmap_page where
  data_head : Nat
  data_tail : Nat
  deriving DecidableEq, Repr

/-- Modelled from the spec: the DataRegion of section 3, a circular byte buffer of a fixed
length; `bytes p` is the byte at physical offset `p`. -/
structure DataRegion where
  length : Nat
  bytes : Nat → Nat

/-- The data members of the Linux class `perf_event` (perf.h lines 41-54).  The pointers
`pc` and `data_mmap` are represented by what they address, `perf_mmap` by its address and
`name` by its characters. -/
structure perf_event where
  perf_fd : Int
  perf_mmap : Nat
  data_mmap : DataRegion
  pc : perf_event_mmap_page
  bufsize : Int
  name : List Char
  cpu : Int
  trace_type : Nat

/-- One invocation of the virtual `handle_event`: the header of the record, the payload
that follows it, and the cookie handed to `process`. -/
structure HandlerCall where
  header : perf_event_header
  payload : List Nat
  cookie : Nat
  deriving DecidableEq, Repr

/-- What a call of `process` leaves behind: the object, the `handle_event` invocations in
the order they were made, and the number of `RecordCorrupt` signals reported. -/
structure Outcome (α : Type) where
  self : α
  calls : List HandlerCall
  corrupt : Nat

/-- The default `perf_event::handle_event` (perf.h line 71): the body is empty, so the
object and the rest of the program state `rest` (what `header` and `cookie` point to, the
static `tep`, everything else) come back as they were. -/
def perf_event.handle_event {ω : Type} (self : perf_event) (_header : perf_event_header)
    (_cookie : Nat) (rest : ω) : perf_event × ω :=
  (self, rest)

/-- Modelled from the spec: `perf_event::clear`, declared on perf.h line 67 with its body
outside `src/`.  Section 4.2: it resets the read cursor to the current write cursor. -/
def perf_event.clear (self : perf_event) : perf_event :=
  { self with pc := { self.pc with data_tail := self.pc.data_head } }

/-- Modelled from the spec: the byte count of section 4.3 (the body of `process` is outside
`src/`), `available = (data_head - data_tail) mod bufferSize`. -/
def available (self : perf_event) : Nat :=
  (((self.pc.data_head : Int) - (self.pc.data_tail : Int)) %
    (self.data_mmap.length : Int)).toNat

/-- Modelled from the spec: one bounded memory copy out of the data region (section 4.3,
part of the absent body of `process`): `n` bytes from physical offset `start`. -/
def slice (d : DataRegion) (start n : Nat) : List Nat :=
  (List.range n).map (fun i => d.bytes (start + i))

/-- Modelled from the spec: the read primitive of sections 4.3 and 9 (part of the absent
body of `process`), "read n bytes at logical offset o, splitting into at most two bounded
slices": tail-to-end, then start-to-remainder, reassembled into one contiguous buffer. -/
def read_at (d : DataRegion) (o n : Nat) : List Nat :=
  let p := o % d.length
  if p + n ≤ d.length then slice d p n
  else slice d p (d.length - p) ++ slice d 0 (n - (d.length - p))

/-- Modelled from the spec: the value of a little-endian byte string, the byte order of
the decoding scenario in section 8 (part of the absent body of `process`). -/
def le_value : List Nat → Nat
  | [] => 0
  | b :: bs => b + 256 * le_value bs

/-- Modelled from the spec: parsing the fixed header of section 6 (part of the absent body
of `process`): `type` in bytes 0-3, `misc` in bytes 4-5, `size` in bytes 6-7. -/
def decode_header (bs : List Nat) : perf_event_header where
  type := le_value (bs.take 4)
  misc := le_value ((bs.drop 4).take 2)
  size := le_value ((bs.drop 6).take 2)

/-- Modelled from the spec: the loop of `perf_event::process` (section 4.3; the body is
outside `src/`).  While available bytes remain it reads the header at the tail; a declared
size that is zero or larger than the buffer is a corruption event: the rest of the pass is
abandoned, one `RecordCorrupt` is reported and the tail is resynchronised to the head, as
by `clear`.  A record that declares more bytes than are available cannot be consumed
without advancing the tail past `data_head` and is handled in the same way.  Otherwise the
record is read with wraparound, handed to `handle_event`, and the tail advances by its
size.  Each pass consumes at least one byte, so `avail` passes are always enough: the
first argument counts them down. -/
def drain (cookie : Nat) : Nat → Nat → perf_event → List HandlerCall → Outcome perf_event
  | 0, _, self, calls => ⟨self, calls, 0⟩
  | fuel + 1, avail, self, calls =>
    if avail = 0 then ⟨self, calls, 0⟩
    else
      let header := decode_header (read_at self.data_mmap self.pc.data_tail 8)
      if header.size = 0 ∨ header.size > self.data_mmap.length ∨ header.size > avail then
        ⟨self.clear, calls, 1⟩
      else
        let record := read_at self.data_mmap self.pc.data_tail header.size
        drain cookie fuel (avail - header.size)
          { self with pc := { self.pc with data_tail := self.pc.data_tail + header.size } }
          (calls ++ [⟨header, record.drop 8, cookie⟩])

/-- Modelled from the spec: `perf_event::process`, declared on perf.h line 69 with its body
outside `src/`.  Section 4.3: it computes `available` and returns immediately if that is
zero; otherwise it runs the loop. -/
def perf_event.process (self : perf_event) (cookie : Nat) : Outcome perf_event :=
  if available self = 0 then ⟨self, [], 0⟩
  else drain cookie (available self) (available self) self []

/-- Modelled from the spec: a record as the producer writes it (section 6): the header
fields and the payload; the `size` field of the header is the total size. -/
structure RawRecord where
  type : Nat
  misc : Nat
  payload : List Nat
  deriving DecidableEq, Repr

/-- The total size of a record: the 8 header bytes and the payload. -/
def RawRecord.size (r : RawRecord) : Nat := 8 + r.payload.length

/-- The record fits the wire format: the fields fit their widths and the payload is made
of bytes. -/
def RawRecord.wf (r : RawRecord) : Prop :=
  r.type < 2 ^ 32 ∧ r.misc < 2 ^ 16 ∧ r.size < 2 ^ 16 ∧ ∀ b ∈ r.payload, b < 256

/-- Modelled from the spec: the `n` low bytes of `v`, least significant first, as the
producer of section 8 (not in `src/`) stores a header field. -/
def le_bytes : Nat → Nat → List Nat
  | 0, _ => []
  | n + 1, v => v % 256 :: le_bytes n (v / 256)

/-- Modelled from the spec: the bytes of one record on the wire (section 6),
`type: u32, misc: u16, size: u16, payload: bytes[size-8]`. -/
def encode (r : RawRecord) : List Nat :=
  le_bytes 4 r.type ++ le_bytes 2 r.misc ++ le_bytes 2 r.size ++ r.payload

/-- Modelled from the spec: the producer of section 8 (not in `src/`) storing bytes into
the circular data region from logical offset `o` on, wrapping at its end. -/
def write_at (d : DataRegion) (o : Nat) : List Nat → DataRegion
  | [] => d
  | b :: bs => write_at { d with bytes := Function.update d.bytes (o % d.length) b } (o + 1) bs

/-- Modelled from the spec: the producer of section 8 (the kernel, or the fake producer of
the tests; not in `src/`): it stores the record at the write cursor, wrapping at the end
of the data region, and advances `data_head` by the size of the record. -/
def produce (self : perf_event) (r : RawRecord) : perf_event :=
  { self with
    data_mmap := write_at self.data_mmap self.pc.data_head (encode r)
    pc := { self.pc with data_head := self.pc.data_head + r.size } }

/-- Modelled from the spec: the producer of section 8 (not in `src/`) writing a sequence
of records, one after the other. -/
def produce_all (self : perf_event) (rs : List RawRecord) : perf_event :=
  rs.foldl produce self

/-- The bytes a sequence of records occupies. -/
def total_size (rs : List RawRecord) : Nat := (rs.map RawRecord.size).sum

/-- The call `handle_event` receives for a record. -/
def delivery (cookie : Nat) (r : RawRecord) : HandlerCall :=
  ⟨⟨r.type, r.misc, r.size⟩, r.payload, cookie⟩

/-- A freshly mapped event source with a data region of `len` zero bytes and both cursors
at `start`. -/
def fresh (len start : Nat) : perf_event where
  perf_fd := 3
  perf_mmap := 0
  data_mmap := ⟨len, fun _ => 0⟩
  pc := ⟨start, start⟩
  bufsize := 1
  name := []
  cpu := 0
  trace_type := 0

/-- The bytes at the logical offsets `o, o+1, ..., o+n-1` of the circular region. -/
def logical (d : DataRegion) (o n : Nat) : List Nat :=
  (List.range n).map (fun i => d.bytes ((o + i) % d.length))

/-- The bytes of a sequence of records, back to back. -/
def encode_all : List RawRecord → List Nat
  | [] => []
  | r :: rs => encode r ++ encode_all rs

/-- A sequence of two records of 2048 bytes each: one page. -/
def page_of_records : List RawRecord :=
  [⟨1, 0, List.replicate 2040 0⟩, ⟨2, 0, List.replicate 2040 0⟩]

/-- The scenario of section 8: a record of 64 bytes and one of 128 bytes. -/
def scenario_records : List RawRecord :=
  [⟨1, 0, List.replicate 56 7⟩, ⟨2, 0, List.replicate 120 9⟩]

/-- A buffer of one page in which the producer is a whole page ahead of the consumer and
the bytes at the read cursor are all zero. -/
def full_of_zeros : perf_event :=
  { fresh 4096 0 with pc := ⟨4096, 0⟩ }

namespace win32

/-- The Windows stub of class `perf_event` (perf.h lines 78-91): its only data member is
`trace_type`; there is no file descriptor, no mapping and no data region. -/
structure perf_event where
  trace_type : Nat
  deriving DecidableEq, Repr

/-- Both constructors of the stub initialise `trace_type` to 0. -/
def perf_event.new : perf_event := ⟨0⟩

def perf_event.set_event_name (self : perf_event) (_system_name _event_name : List Char) :
    perf_event := self

def perf_event.set_cpu (self : perf_event) (_cpu : Int) : perf_event := self

def perf_event.start (self : perf_event) : perf_event := self

def perf_event.stop (self : perf_event) : perf_event := self

/-- The stub `clear` (line 88): an empty body. -/
def perf_event.clear (self : perf_event) : perf_event := self

/-- The stub `process` (line 89): an empty body; it invokes nothing and reports nothing. -/
def perf_event.process (self : perf_event) (_cookie : Nat) : Outcome perf_event :=
  ⟨self, [], 0⟩

/-- The stub `handle_event` (line 90): an empty body, so the object and the rest of the
program state come back as they were. -/
def perf_event.handle_event {ω : Type} (self : perf_event) (_header _cookie : Nat)
    (rest : ω) : perf_event × ω :=
  (self, rest)

end win32

end Perf

/-! ## Command-line scanning: lemmas -/

namespace GetoptWin

theorem strchr_first (pre : CStr) (c : Char) (tl : CStr) (h : c ∉ pre) :
    strchr (pre ++ c :: tl) c = some (c :: tl) := by
  induction pre with
  | nil => simp [strchr]
  | cons x xs ih =>
    have hx : x ≠ c := fun e => h (by simp [e])
    have hxs : c ∉ xs := fun e => h (by simp [e])
    simp [strchr, hx, ih hxs]

theorem find_match_first (arg_start : CStr) (lopts : List option) (i : Nat) (e : option)
    (idx : Int) (hi : lopts[i]? = some e) (hm : name_matches arg_start e = true)
    (hfirst : ∀ j e', j < i → lopts[j]? = some e' → name_matches arg_start e' = false) :
    find_match arg_start lopts idx = some (e, idx + i) := by
  induction lopts generalizing i idx with
  | nil => simp at hi
  | cons lo rest ih =>
    cases i with
    | zero =>
      simp at hi
      subst hi
      simp [find_match, hm]
    | succ k =>
      have h0 : name_matches arg_start lo = false := hfirst 0 lo (by omega) (by simp)
      simp only [List.getElem?_cons_succ] at hi
      have := ih k (idx + 1) hi (fun j e' hj he => hfirst (j + 1) e' (by omega) (by simpa using he))
      simp [find_match, h0, this]
      omega

theorem name_matches_self (name V : CStr) (lo : option) (h : lo.name = name) :
    name_matches (name ++ '=' :: V) lo = true := by
  subst h
  have hget : (lo.name ++ '=' :: V)[lo.name.length]? = some '=' := by
    rw [List.getElem?_append_right (le_refl _)]
    simp
  simp [name_matches, strncmp_eq, hget]

theorem not_pending (g : Globals) (hp : ¬ cluster_pending g) :
    g.optreset ≠ 0 ∨ g.nextchar = none ∨ g.nextchar = some [] := by
  unfold cluster_pending at hp
  exact not_not.mp hp

/-- End of option scanning in `getopt_internal`, for any `longopts`. -/
theorem internal_end_of_options (argc : Int) (argv : List (Option CStr)) (optstring : CStr)
    (longopts : Option (List option)) (longindex : Option Nat) (lo : Int) (g : Globals)
    (hp : ¬ cluster_pending g) :
    (argc ≤ g.optind →
      getopt_internal argc argv optstring longopts longindex lo g =
        some (-1, { g with optreset := 0, nextchar := none })) ∧
    (argv_at argv g.optind = some none →
      getopt_internal argc argv optstring longopts longindex lo g =
        some (-1, { g with optreset := 0, nextchar := none })) ∧
    (∀ arg, argv_at argv g.optind = some (some arg) → arg.head? ≠ some '-' →
      getopt_internal argc argv optstring longopts longindex lo g =
        some (-1, { g with optreset := 0, nextchar := none })) ∧
    (argv_at argv g.optind = some (some ['-']) →
      getopt_internal argc argv optstring longopts longindex lo g =
        some (-1, { g with optreset := 0, nextchar := none })) ∧
    (g.optind < argc → argv_at argv g.optind = some (some ['-', '-']) →
      getopt_internal argc argv optstring longopts longindex lo g =
        some (-1, { g with optreset := 0, nextchar := none, optind := g.optind + 1 })) := by
  have h1 := not_pending g hp
  refine ⟨?_, ?_, ?_, ?_, ?_⟩
  · intro h
    unfold getopt_internal
    rw [if_pos h1]
    simp [h]
  · intro h
    unfold getopt_internal
    rw [if_pos h1]
    by_cases hge : g.optind ≥ argc <;> simp [hge, h]
  · intro arg h hh
    unfold getopt_internal
    rw [if_pos h1]
    have h0 : arg[0]? ≠ some '-' := by
      cases arg <;> simp at hh ⊢
      exact hh
    by_cases hge : g.optind ≥ argc <;> simp [hge, h, h0]
  · intro h
    unfold getopt_internal
    rw [if_pos h1]
    by_cases hge : g.optind ≥ argc <;> simp [hge, h]
  · intro hlt h
    have hge : ¬ (g.optind ≥ argc) := by omega
    unfold getopt_internal
    rw [if_pos h1]
    simp [hge, h]

/-! ## Command-line scanning: the claims -/

/-- C5. End of option scanning in `getopt` and `getopt_long`: when no option cluster is
pending, a call returns -1 and leaves `optind` unchanged if `optind >= argc`, or
`argv[optind]` is NULL, or `argv[optind]` does not start with a dash, or `argv[optind]` is
exactly "-"; and if `argv[optind]` (with `optind < argc`) is exactly "--" it returns -1 and
increases `optind` by exactly 1.  In every case the only other variable touched is
`nextchar`, which becomes NULL. -/
theorem getopt_end_of_options (argc : Int) (argv : List (Option CStr)) (optstring : CStr)
    (longopts : Option (List option)) (longindex : Option Nat) (g : Globals)
    (hp : ¬ cluster_pending g) :
    ∀ r, r = getopt argc argv optstring g ∨
        r = getopt_long argc argv optstring longopts longindex g →
      (argc ≤ g.optind → r = some (-1, { g with optreset := 0, nextchar := none })) ∧
      (argv_at argv g.optind = some none →
        r = some (-1, { g with optreset := 0, nextchar := none })) ∧
      (∀ arg, argv_at argv g.optind = some (some arg) → arg.head? ≠ some '-' →
        r = some (-1, { g with optreset := 0, nextchar := none })) ∧
      (argv_at argv g.optind = some (some ['-']) →
        r = some (-1, { g with optreset := 0, nextchar := none })) ∧
      (g.optind < argc → argv_at argv g.optind = some (some ['-', '-']) →
        r = some (-1, { g with optreset := 0, nextchar := none, optind := g.optind + 1 })) := by
  intro r hr
  rcases hr with rfl | rfl
  · exact internal_end_of_options argc argv optstring none none 0 g hp
  · exact internal_end_of_options argc argv optstring longopts longindex 0 g hp

theorem getopt_end_of_options_witness :
    ¬ cluster_pending initial ∧
    getopt 1 [some "prog".toList] "ab:".toList initial =
      some (-1, { initial with optreset := 0, nextchar := none }) ∧
    getopt 2 [some "prog".toList, none] "ab:".toList initial =
      some (-1, { initial with optreset := 0, nextchar := none }) ∧
    getopt 2 [some "prog".toList, some "file".toList] "ab:".toList initial =
      some (-1, { initial with optreset := 0, nextchar := none }) ∧
    getopt_long 2 [some "prog".toList, some "-".toList] "ab:".toList (some []) none initial =
      some (-1, { initial with optreset := 0, nextchar := none }) ∧
    getopt_long 3 [some "prog".toList, some "--".toList, some "file".toList] "ab:".toList
        (some []) none initial =
      some (-1, { initial with optreset := 0, nextchar := none, optind := initial.optind + 1 }) :=
  ⟨by decide,
    (getopt_end_of_options 1 [some "prog".toList] "ab:".toList none none initial (by decide)
      _ (Or.inl rfl)).1 (by decide),
    (getopt_end_of_options 2 [some "prog".toList, none] "ab:".toList none none initial
      (by decide) _ (Or.inl rfl)).2.1 (by decide),
    (getopt_end_of_options 2 [some "prog".toList, some "file".toList] "ab:".toList none none
      initial (by decide) _ (Or.inl rfl)).2.2.1 "file".toList (by decide) (by decide),
    (getopt_end_of_options 2 [some "prog".toList, some "-".toList] "ab:".toList (some [])
      none initial (by decide) _ (Or.inr rfl)).2.2.2.1 (by decide),
    (getopt_end_of_options 3 [some "prog".toList, some "--".toList, some "file".toList]
      "ab:".toList (some []) none initial (by decide) _ (Or.inr rfl)).2.2.2.2
      (by decide) (by decide)⟩

/-- C8. For every `longopts` table and every entry at index `i` with name `N` (containing
no `=`), `has_arg = required_argument` and `flag = NULL`, such that no earlier entry
passes the matching test, and every string `V`: with no cluster pending, `getopt_long` on
the element `--N=V` returns that entry's `val`, sets `optarg` to `V`, stores `i` in
`*longindex` when `longindex` is not NULL, and increases `optind` by exactly 1. -/
theorem getopt_long_equals_argument (argc : Int) (argv : List (Option CStr))
    (optstring : CStr) (lopts : List option) (longindex : Option Nat) (g : Globals)
    (i : Nat) (e : option) (V : CStr)
    (hp : ¬ cluster_pending g) (hi : lopts[i]? = some e) (hN : '=' ∉ e.name)
    (hreq : e.has_arg = required_argument) (hflag : e.flag = none)
    (hfirst : ∀ j e', j < i → lopts[j]? = some e' →
      name_matches (e.name ++ '=' :: V) e' = false)
    (hlt : g.optind < argc)
    (harg : argv_at argv g.optind = some (some ('-' :: '-' :: (e.name ++ '=' :: V)))) :
    getopt_long argc argv optstring (some lopts) longindex g =
      some (e.val,
        { g with optreset := 0, nextchar := none, optarg := some V,
                 optind := g.optind + 1,
                 mem := match longindex with
                   | some p => Function.update g.mem p (i : Int)
                   | none => g.mem }) := by
  have hge : ¬ (g.optind ≥ argc) := by omega
  have h2 : (e.name ++ '=' :: V)[0]? ≠ none := by
    cases e.name <;> simp
  have hfind := find_match_first (e.name ++ '=' :: V) lopts i e 0 hi
    (name_matches_self e.name V e rfl) hfirst
  have hchr := strchr_first e.name '=' V hN
  unfold getopt_long getopt_internal
  rw [if_pos (not_pending g hp)]
  simp only [hge, if_false, harg]
  simp only [List.getElem?_cons_succ, List.getElem?_cons_zero, h2, ne_eq, not_true_eq_false,
    false_or, and_false, if_false, if_true, long_option, List.drop_succ_cons, List.drop_zero,
    hfind, hreq, hflag, hchr, true_or, zero_add]
  cases longindex <;> rfl

theorem getopt_long_equals_argument_witness :
    getopt_long 2 [some "prog".toList, some ("--" ++ "time" ++ "=" ++ "20").toList]
        "t:".toList
        (some [⟨"debug".toList, no_argument, none, 100⟩,
               ⟨"time".toList, required_argument, none, 116⟩])
        (some 7) initial =
      some (116,
        { initial with optreset := 0, nextchar := none, optarg := some "20".toList,
                       optind := initial.optind + 1,
                       mem := Function.update initial.mem 7 ((1 : Nat) : Int) }) :=
  getopt_long_equals_argument 2 [some "prog".toList, some ("--" ++ "time" ++ "=" ++ "20").toList]
    "t:".toList
    [⟨"debug".toList, no_argument, none, 100⟩, ⟨"time".toList, required_argument, none, 116⟩]
    (some 7) initial 1 ⟨"time".toList, required_argument, none, 116⟩ "20".toList
    (by decide) rfl (by decide) (by decide) (by decide)
    (fun j e' hj he => by
      have hj0 : j = 0 := by omega
      subst hj0
      simp only [List.getElem?_cons_zero, Option.some.injEq] at he
      subst he
      decide)
    (by decide) (by decide)

/-- C9 (the code at the failing input). With the table entry `name`, declared
`required_argument` with `flag = NULL` and `val = 110`, and `--name` as the last element
of `argv`, `getopt_long` returns the entry's `val` with `optarg = NULL` and nothing written
to `stderr`: neither the question mark nor, with a leading colon in `optstring`, the colon.
The short option block returns the question mark on the same shape of input. -/
theorem getopt_long_missing_argument_returns_val :
    (getopt_long 2 [some "prog".toList, some "--name".toList] "n:".toList
        (some [⟨"name".toList, required_argument, none, 110⟩]) none initial).map
        (fun r => (r.1, r.2.optarg, r.2.optind, r.2.stderr)) =
      some (110, none, 2, []) ∧
    (getopt_long 2 [some "prog".toList, some "--name".toList] ":n:".toList
        (some [⟨"name".toList, required_argument, none, 110⟩]) none initial).map
        (fun r => (r.1, r.2.optarg, r.2.optind, r.2.stderr)) =
      some (110, none, 2, []) ∧
    (110 : Int) ≠ char_code '?' ∧ (110 : Int) ≠ char_code ':' ∧
    (getopt_long 2 [some "prog".toList, some "-n".toList] "n:".toList
        (some [⟨"name".toList, required_argument, none, 110⟩]) none initial).map
        (fun r => (r.1, r.2.optarg, r.2.optind)) =
      some (char_code '?', none, 2) :=
  ⟨by decide, by decide, by decide, by decide, by decide⟩

end GetoptWin

/-! ## The perf event pump: lemmas on the circular data region -/

namespace Perf

theorem mod_window (L a b : Nat) (h1 : a < b) (h2 : b < a + L) : a % L ≠ b % L := by
  intro h
  have h3 : (b - a) % L = 0 := Nat.sub_mod_eq_zero_of_mod_eq h.symm
  have h4 : (b - a) % L = b - a := Nat.mod_eq_of_lt (by omega)
  omega

theorem logical_length (d : DataRegion) (o n : Nat) : (logical d o n).length = n := by
  simp [logical]

theorem logical_add (d : DataRegion) (o m n : Nat) :
    logical d o (m + n) = logical d o m ++ logical d (o + m) n := by
  simp [logical, List.range_add, List.map_append, Nat.add_assoc, Function.comp_def]

theorem mod_shift (o L i : Nat) (h : o % L + i < L) : (o + i) % L = o % L + i := by
  rw [← Nat.mod_add_mod]
  exact Nat.mod_eq_of_lt h

theorem mod_wrap (o L x j : Nat) (hx : o % L + x = L + j) (hj : j < L) : (o + x) % L = j := by
  rw [← Nat.mod_add_mod, hx, Nat.add_mod_left]
  exact Nat.mod_eq_of_lt hj

theorem read_at_eq_logical (d : DataRegion) (o n : Nat) (hn : n ≤ d.length) :
    read_at d o n = logical d o n := by
  rcases Nat.eq_zero_or_pos n with h0 | hpos
  · subst h0
    simp only [read_at, slice, logical, Nat.add_zero, Nat.zero_sub, List.range_zero,
      List.map_nil, List.append_nil]
    split
    · simp
    · simp
      omega
  have hL : 0 < d.length := by omega
  have hp : o % d.length < d.length := Nat.mod_lt _ hL
  unfold read_at
  by_cases h : o % d.length + n ≤ d.length
  · simp only [h, if_true, slice, logical]
    apply List.map_congr_left
    intro i hi
    have hi2 : i < n := List.mem_range.mp hi
    rw [mod_shift o d.length i (by omega)]
  · simp only [h, if_false]
    have hsplit : n = (d.length - o % d.length) + (n - (d.length - o % d.length)) := by omega
    conv_rhs => rw [hsplit, logical_add]
    congr 1
    · simp only [slice, logical]
      apply List.map_congr_left
      intro i hi
      have hi2 : i < d.length - o % d.length := List.mem_range.mp hi
      rw [mod_shift o d.length i (by omega)]
    · simp only [slice, logical]
      apply List.map_congr_left
      intro i hi
      have hi2 : i < n - (d.length - o % d.length) := List.mem_range.mp hi
      rw [Nat.add_assoc, mod_wrap o d.length _ i (by omega) (by omega), Nat.zero_add]

theorem write_at_length (d : DataRegion) (o : Nat) (bs : List Nat) :
    (write_at d o bs).length = d.length := by
  induction bs generalizing d o with
  | nil => rfl
  | cons b bs ih => simp [write_at, ih]

theorem write_at_bytes_other (d : DataRegion) (o : Nat) (bs : List Nat) (q : Nat)
    (h : ∀ i, i < bs.length → (o + i) % d.length ≠ q) :
    (write_at d o bs).bytes q = d.bytes q := by
  induction bs generalizing d o with
  | nil => rfl
  | cons b bs ih =>
    have h0 : q ≠ o % d.length := fun e => h 0 (by simp) (by simpa using e.symm)
    simp only [write_at]
    rw [ih]
    · simp [Function.update, h0]
    · intro i hi
      have := h (i + 1) (by simpa using hi)
      simpa [Nat.add_assoc, Nat.add_comm 1 i] using this

theorem write_at_bytes_same (d : DataRegion) (o : Nat) (bs : List Nat) (j : Nat)
    (hj : j < bs.length) (hlen : bs.length ≤ d.length) :
    (write_at d o bs).bytes ((o + j) % d.length) = bs.getD j 0 := by
  induction bs generalizing d o j with
  | nil => simp at hj
  | cons b bs ih =>
    simp only [List.length_cons] at hj hlen
    simp only [write_at]
    cases j with
    | zero =>
      rw [write_at_bytes_other]
      · simp
      · intro i hi
        simp only [Nat.add_zero]
        exact (mod_window d.length o (o + 1 + i) (by omega) (by omega)).symm
    | succ k =>
      have := ih { d with bytes := Function.update d.bytes (o % d.length) b } (o + 1) k
        (by omega) (by simpa using (by omega : bs.length ≤ d.length))
      simpa [Nat.add_assoc, Nat.add_comm 1 k] using this

theorem logical_write_same (d : DataRegion) (o : Nat) (bs : List Nat)
    (hlen : bs.length ≤ d.length) :
    logical (write_at d o bs) o bs.length = bs := by
  apply List.ext_getElem
  · simp [logical]
  · intro i h1 h2
    simp only [logical, List.getElem_map, List.getElem_range, write_at_length]
    rw [write_at_bytes_same d o bs i h2 hlen]
    simp [List.getD_eq_getElem?_getD, h2]

theorem logical_write_other (d : DataRegion) (o : Nat) (bs : List Nat) (o2 k : Nat)
    (h1 : o2 + k ≤ o) (h2 : o + bs.length ≤ o2 + d.length) :
    logical (write_at d o bs) o2 k = logical d o2 k := by
  simp only [logical, write_at_length]
  apply List.map_congr_left
  intro i hi
  have hi2 : i < k := List.mem_range.mp hi
  apply write_at_bytes_other
  intro j hj
  exact (mod_window d.length (o2 + i) (o + j) (by omega) (by omega)).symm

end Perf

/-! ## The perf event pump: producer and consumer -/

namespace Perf

theorem encode_length (r : RawRecord) : (encode r).length = r.size := by
  simp [encode, le_bytes, RawRecord.size]
  omega

theorem total_size_cons (r : RawRecord) (rs : List RawRecord) :
    total_size (r :: rs) = r.size + total_size rs := by
  simp [total_size]

theorem decode_encode (r : RawRecord) (h : r.wf) :
    decode_header ((encode r).take 8) = ⟨r.type, r.misc, r.size⟩ := by
  obtain ⟨h1, h2, h3, _⟩ := h
  simp only [encode, le_bytes, decode_header, List.cons_append, List.nil_append,
    List.take_succ_cons, List.take_zero, List.drop_succ_cons, List.drop_zero, le_value]
  congr 1 <;> omega

theorem encode_drop (r : RawRecord) : (encode r).drop 8 = r.payload := by
  simp [encode, le_bytes]

/-- The producer appends: if the `k` bytes from logical offset `h0` up to the write cursor
read as `bs`, then after the records `rs` are written they read as `bs` followed by the
encoding of `rs`, provided everything fits the region; nothing but the data region and
`data_head` changes. -/
theorem produce_all_spec (rs : List RawRecord) :
    ∀ (s : perf_event) (h0 k : Nat),
      s.pc.data_head = h0 + k → k + total_size rs ≤ s.data_mmap.length →
      (produce_all s rs).pc.data_head = h0 + k + total_size rs ∧
      (produce_all s rs).pc.data_tail = s.pc.data_tail ∧
      (produce_all s rs).data_mmap.length = s.data_mmap.length ∧
      logical (produce_all s rs).data_mmap h0 (k + total_size rs) =
        logical s.data_mmap h0 k ++ encode_all rs := by
  induction rs with
  | nil =>
    intro s h0 k hh _
    simp [produce_all, total_size, encode_all, hh]
  | cons r rs ih =>
    intro s h0 k hh hfit
    rw [total_size_cons] at hfit
    have hstep : produce_all s (r :: rs) = produce_all (produce s r) rs := rfl
    have hlen : (produce s r).data_mmap.length = s.data_mmap.length := by
      simp [produce, write_at_length]
    have hhead : (produce s r).pc.data_head = h0 + (k + r.size) := by
      simp [produce, hh, Nat.add_assoc]
    obtain ⟨i1, i2, i3, i4⟩ := ih (produce s r) h0 (k + r.size) hhead (by rw [hlen]; omega)
    rw [hstep, total_size_cons]
    refine ⟨by omega, by rw [i2]; rfl, by rw [i3, hlen], ?_⟩
    rw [← Nat.add_assoc, i4, logical_add]
    have e1 : logical (produce s r).data_mmap h0 k = logical s.data_mmap h0 k := by
      simp only [produce, hh]
      apply logical_write_other
      · omega
      · rw [encode_length]
        omega
    have e2 : logical (produce s r).data_mmap (h0 + k) r.size = encode r := by
      simp only [produce, hh]
      have := logical_write_same s.data_mmap (h0 + k) (encode r)
        (by rw [encode_length]; omega)
      rwa [encode_length] at this
    rw [e1, e2, encode_all, List.append_assoc]

/-- The loop delivers what the region holds: if the bytes from the tail on are the
encoding of the well-formed records `rs` and `avail` is their total size, the loop hands
each of them to `handle_event` in order, reports no corruption and leaves the tail just
behind the last of them. -/
theorem drain_delivers (cookie : Nat) (rs : List RawRecord) :
    ∀ (fuel avail : Nat) (s : perf_event) (calls : List HandlerCall),
      (∀ r ∈ rs, r.wf) → avail = total_size rs → rs.length ≤ fuel →
      total_size rs ≤ s.data_mmap.length →
      logical s.data_mmap s.pc.data_tail (total_size rs) = encode_all rs →
      drain cookie fuel avail s calls =
        ⟨{ s with pc := { s.pc with data_tail := s.pc.data_tail + total_size rs } },
          calls ++ rs.map (delivery cookie), 0⟩ := by
  induction rs with
  | nil =>
    intro fuel avail s calls _ hav _ _ _
    subst hav
    cases fuel <;> simp [drain, total_size]
  | cons r rs ih =>
    intro fuel avail s calls hwf hav hfuel hfit hbytes
    rw [total_size_cons] at hav hfit hbytes
    have hr : r.wf := hwf r (by simp)
    have hsz : r.size = 8 + r.payload.length := rfl
    obtain ⟨f, rfl⟩ : ∃ f, fuel = f + 1 := ⟨fuel - 1, by simp at hfuel; omega⟩
    rw [logical_add, encode_all] at hbytes
    obtain ⟨hb1, hb2⟩ := List.append_inj hbytes (by rw [logical_length, encode_length])
    have hhdr : read_at s.data_mmap s.pc.data_tail 8 = (encode r).take 8 := by
      rw [read_at_eq_logical _ _ _ (by omega), ← hb1, hsz, logical_add,
        List.take_left' (logical_length _ _ _)]
    have hrec : read_at s.data_mmap s.pc.data_tail r.size = encode r := by
      rw [read_at_eq_logical _ _ _ (by omega), hb1]
    have hguard : ¬ (r.size = 0 ∨ r.size > s.data_mmap.length ∨ r.size > avail) := by
      omega
    have hne : avail ≠ 0 := by omega
    rw [drain]
    simp only [hne, if_false, hhdr, decode_encode r hr, hguard, hrec, encode_drop]
    rw [ih f (avail - r.size) _ _ (fun x hx => hwf x (by simp [hx])) (by omega)
      (by simp at hfuel; omega) (by simpa using (by omega : total_size rs ≤ s.data_mmap.length))
      (by simpa using hb2)]
    simp [total_size_cons, delivery, Nat.add_assoc]

/-- The countdown of the loop never runs out: any count of at least `avail` passes gives
the same outcome, because each pass that continues consumes at least one byte. -/
theorem drain_enough_passes (cookie : Nat) :
    ∀ (f1 f2 avail : Nat) (s : perf_event) (calls : List HandlerCall),
      avail ≤ f1 → avail ≤ f2 →
      drain cookie f1 avail s calls = drain cookie f2 avail s calls := by
  intro f1
  induction f1 with
  | zero =>
    intro f2 avail s calls h1 _
    have h0 : avail = 0 := by omega
    subst h0
    cases f2 <;> simp [drain]
  | succ n ih =>
    intro f2 avail s calls h1 h2
    cases f2 with
    | zero =>
      have h0 : avail = 0 := by omega
      subst h0
      simp [drain]
    | succ m =>
      rw [drain, drain]
      by_cases h0 : avail = 0
      · simp [h0]
      · simp only [h0, if_false]
        split
        · rfl
        · next hg =>
          apply ih <;> omega

end Perf

namespace Perf

theorem available_of_le (s : perf_event) (h : s.pc.data_tail ≤ s.pc.data_head) :
    available s = (s.pc.data_head - s.pc.data_tail) % s.data_mmap.length := by
  unfold available
  have e : ((s.pc.data_head : Int) - (s.pc.data_tail : Int)) =
      ((s.pc.data_head - s.pc.data_tail : Nat) : Int) := by omega
  rw [e, ← Int.natCast_mod, Int.toNat_natCast]

theorem length_le_total_size (rs : List RawRecord) : rs.length ≤ total_size rs := by
  induction rs with
  | nil => simp [total_size]
  | cons r rs ih =>
    rw [total_size_cons]
    simp only [List.length_cons, RawRecord.size]
    omega

theorem clear_of_drained (s : perf_event) (h : s.pc.data_tail = s.pc.data_head) :
    s.clear = s := by
  obtain ⟨fd, mm, d, ⟨hd, tl⟩, bs, nm, cpu, tt⟩ := s
  simp only at h
  subst h
  rfl

theorem wf_replicate (t m n b : Nat) (ht : t < 2 ^ 32) (hm : m < 2 ^ 16)
    (hn : 8 + n < 2 ^ 16) (hb : b < 256) : RawRecord.wf ⟨t, m, List.replicate n b⟩ := by
  refine ⟨ht, hm, ?_, ?_⟩
  · simp only [RawRecord.size, List.length_replicate]
    exact hn
  · intro x hx
    rw [List.eq_of_mem_replicate hx]
    exact hb

theorem total_size_pair (a b : RawRecord) : total_size [a, b] = a.size + b.size := by
  simp [total_size]

/-- A pass that finds `available = 0` returns at once: no call, no signal, no change. -/
theorem process_of_available_zero (s : perf_event) (cookie : Nat) (h : available s = 0) :
    s.process cookie = ⟨s, [], 0⟩ := by
  simp [perf_event.process, h]

/-! ## The perf event pump: the claims -/

/-- C1 (as amended). For every sequence of well-formed records written by a producer into
the data region of a drained event source, whose unconsumed backlog stays strictly below
the buffer capacity, `process(cookie)` invokes `handle_event` exactly once per record, in
the order the records were written, with none skipped or duplicated; it reports no
corruption and leaves the read cursor at the write cursor, all else untouched. -/
theorem process_delivers_in_order (self : perf_event) (rs : List RawRecord) (cookie : Nat)
    (hdrained : self.pc.data_tail = self.pc.data_head)
    (hwf : ∀ r ∈ rs, r.wf)
    (hbacklog : total_size rs < self.data_mmap.length) :
    ((produce_all self rs).process cookie).calls = rs.map (delivery cookie) ∧
    ((produce_all self rs).process cookie).corrupt = 0 ∧
    ((produce_all self rs).process cookie).self = (produce_all self rs).clear := by
  obtain ⟨p1, p2, p3, p4⟩ :=
    produce_all_spec rs self self.pc.data_head 0 rfl (by omega)
  have hl0 : logical self.data_mmap self.pc.data_head 0 = [] := rfl
  rw [hl0] at p4
  simp only [Nat.add_zero, Nat.zero_add, List.nil_append] at p1 p4
  have p4b : logical (produce_all self rs).data_mmap (produce_all self rs).pc.data_tail
      (total_size rs) = encode_all rs := by
    rw [p2, hdrained]
    exact p4
  have hav : available (produce_all self rs) = total_size rs := by
    rw [available_of_le _ (by omega), p1, p2, hdrained, p3, Nat.add_sub_cancel_left,
      Nat.mod_eq_of_lt hbacklog]
  by_cases h0 : total_size rs = 0
  · have hnil : rs = [] := by
      have := length_le_total_size rs
      exact List.length_eq_zero.mp (by omega)
    subst hnil
    rw [process_of_available_zero _ _ (by rw [hav, h0])]
    refine ⟨rfl, rfl, ?_⟩
    exact (clear_of_drained _ (by rw [p2, p1, h0, hdrained]; rfl)).symm
  · have hd := drain_delivers cookie rs (total_size rs) (total_size rs) (produce_all self rs) []
      hwf rfl (length_le_total_size rs) (by rw [p3]; omega) p4b
    have hproc : (produce_all self rs).process cookie =
        drain cookie (total_size rs) (total_size rs) (produce_all self rs) [] := by
      simp [perf_event.process, hav, h0]
    rw [hproc, hd]
    refine ⟨by simp, rfl, ?_⟩
    simp only [perf_event.clear, p1, p2, hdrained]

theorem process_delivers_in_order_witness :
    ((produce_all (fresh 16384 16300) scenario_records).process 5).calls =
      scenario_records.map (delivery 5) ∧
    ((produce_all (fresh 16384 16300) scenario_records).process 5).corrupt = 0 ∧
    ((produce_all (fresh 16384 16300) scenario_records).process 5).self =
      (produce_all (fresh 16384 16300) scenario_records).clear :=
  process_delivers_in_order (fresh 16384 16300) scenario_records 5 rfl
    (by
      intro r hr
      simp only [scenario_records, List.mem_cons, List.mem_singleton, List.not_mem_nil,
        or_false] at hr
      rcases hr with rfl | rfl <;>
        exact wf_replicate _ _ _ _ (by norm_num) (by norm_num) (by norm_num) (by norm_num))
    (by
      rw [scenario_records, total_size_pair]
      simp only [RawRecord.size, List.length_replicate, fresh]
      norm_num)

/-- C1 (as stated) fails when the backlog equals the capacity. On a drained buffer of one
page (4096 bytes) the producer writes two well-formed records of 2048 bytes each: the
backlog is 4096 and does not exceed the capacity, but `(data_head - data_tail) mod 4096`
is 0, so `process` returns at once and `handle_event` is invoked for neither record. -/
theorem process_full_buffer_delivers_nothing :
    (fresh 4096 0).pc.data_tail = (fresh 4096 0).pc.data_head ∧
    (∀ r ∈ page_of_records, r.wf) ∧
    total_size page_of_records ≤ (fresh 4096 0).data_mmap.length ∧
    ((produce_all (fresh 4096 0) page_of_records).process 5).calls = [] ∧
    ((produce_all (fresh 4096 0) page_of_records).process 5).calls ≠
      page_of_records.map (delivery 5) := by
  have hts : total_size page_of_records = 4096 := by
    rw [page_of_records, total_size_pair]
    simp only [RawRecord.size, List.length_replicate]
  have hwf : ∀ r ∈ page_of_records, r.wf := by
    intro r hr
    simp only [page_of_records, List.mem_cons, List.mem_singleton, List.not_mem_nil,
      or_false] at hr
    rcases hr with rfl | rfl <;>
      exact wf_replicate _ _ _ _ (by norm_num) (by norm_num) (by norm_num) (by norm_num)
  have hlen : (fresh 4096 0).data_mmap.length = 4096 := rfl
  obtain ⟨p1, p2, p3, _⟩ :=
    produce_all_spec page_of_records (fresh 4096 0) 0 0 rfl (by rw [hts, hlen])
  have ht0 : (fresh 4096 0).pc.data_tail = 0 := rfl
  rw [hts] at p1
  rw [ht0] at p2
  rw [hlen] at p3
  have hav : available (produce_all (fresh 4096 0) page_of_records) = 0 := by
    rw [available_of_le _ (by rw [p1, p2]; norm_num), p1, p2, p3]
  have hcalls := process_of_available_zero _ 5 hav
  refine ⟨rfl, hwf, by rw [hts, hlen], by rw [hcalls], ?_⟩
  rw [hcalls]
  intro h
  have := congrArg List.length h
  simp only [page_of_records, List.length_map, List.length_cons, List.length_nil] at this
  omega

/-- C2 (as amended). For every buffer state in which `process` sees unconsumed bytes
(`(data_head - data_tail) mod bufferSize` is not 0) and the record at the read cursor
declares an implausible size (0, or larger than the buffer length), `process` reports
exactly one `RecordCorrupt` signal, sets the read cursor `data_tail` equal to the write
cursor `data_head` (the state `clear` would give), and makes no `handle_event` call for
any record at or after the corrupt one. -/
theorem process_corrupt_record (self : perf_event) (cookie : Nat)
    (havail : available self ≠ 0)
    (hsize : (decode_header (read_at self.data_mmap self.pc.data_tail 8)).size = 0 ∨
      (decode_header (read_at self.data_mmap self.pc.data_tail 8)).size >
        self.data_mmap.length) :
    (self.process cookie).corrupt = 1 ∧
    (self.process cookie).self.pc.data_tail = (self.process cookie).self.pc.data_head ∧
    (self.process cookie).calls = [] ∧
    (self.process cookie).self = self.clear := by
  obtain ⟨n, hn⟩ : ∃ n, available self = n + 1 := ⟨available self - 1, by omega⟩
  have hguard : (decode_header (read_at self.data_mmap self.pc.data_tail 8)).size = 0 ∨
      (decode_header (read_at self.data_mmap self.pc.data_tail 8)).size >
        self.data_mmap.length ∨
      (decode_header (read_at self.data_mmap self.pc.data_tail 8)).size > n + 1 := by
    rcases hsize with h | h
    · exact Or.inl h
    · exact Or.inr (Or.inl h)
  have hproc : self.process cookie = ⟨self.clear, [], 1⟩ := by
    unfold perf_event.process
    rw [if_neg havail, hn, drain]
    simp only [Nat.succ_ne_zero, if_false, hguard, if_true]
  rw [hproc]
  exact ⟨rfl, rfl, rfl, rfl⟩

theorem process_corrupt_record_witness :
    available { fresh 4096 0 with pc := ⟨64, 0⟩ } ≠ 0 ∧
    (({ fresh 4096 0 with pc := ⟨64, 0⟩ } : perf_event).process 5).corrupt = 1 ∧
    (({ fresh 4096 0 with pc := ⟨64, 0⟩ } : perf_event).process 5).self.pc.data_tail =
      (({ fresh 4096 0 with pc := ⟨64, 0⟩ } : perf_event).process 5).self.pc.data_head ∧
    (({ fresh 4096 0 with pc := ⟨64, 0⟩ } : perf_event).process 5).calls = [] ∧
    (({ fresh 4096 0 with pc := ⟨64, 0⟩ } : perf_event).process 5).self =
      ({ fresh 4096 0 with pc := ⟨64, 0⟩ } : perf_event).clear :=
  ⟨by decide,
    process_corrupt_record { fresh 4096 0 with pc := ⟨64, 0⟩ } 5 (by decide)
      (Or.inl (by decide))⟩

/-- C2 (as stated) fails on a full buffer. In a buffer of one page (4096 bytes) with
`data_head = 4096` and `data_tail = 0` there are 4096 unconsumed bytes and the header at
the read cursor declares size 0, but `(data_head - data_tail) mod 4096` is 0: `process`
returns at once, reports no `RecordCorrupt` and leaves `data_tail` at 0, not at
`data_head`. -/
theorem process_full_buffer_reports_nothing :
    (decode_header (read_at full_of_zeros.data_mmap full_of_zeros.pc.data_tail 8)).size = 0 ∧
    full_of_zeros.pc.data_head - full_of_zeros.pc.data_tail = full_of_zeros.data_mmap.length ∧
    (full_of_zeros.process 5).corrupt = 0 ∧
    (full_of_zeros.process 5).self.pc.data_tail = 0 ∧
    (full_of_zeros.process 5).self.pc.data_head = 4096 := by
  decide

/-- C3. The default `perf_event::handle_event` is a no-op: for every header and cookie,
calling it on a `perf_event` that does not override it leaves every field of the object
(`trace_type` included) unchanged and has no other effect: the rest of the program state
comes back as it was.  This holds for the Linux class and for the Windows stub. -/
theorem handle_event_is_noop {ω : Type} (self : perf_event) (stub : win32.perf_event)
    (header : perf_event_header) (header_ptr cookie : Nat) (rest : ω) :
    self.handle_event header cookie rest = (self, rest) ∧
    (self.handle_event header cookie rest).1.trace_type = self.trace_type ∧
    stub.handle_event header_ptr cookie rest = (stub, rest) ∧
    (stub.handle_event header_ptr cookie rest).1.trace_type = stub.trace_type :=
  ⟨rfl, rfl, rfl, rfl⟩

/-- C4. For every `perf_event` state, calling `clear()` and then `process(cookie)` with no
new producer writes in between results in zero `handle_event` invocations (and no
corruption signal, and the object as `clear` left it).  This holds for the event source
of section 4 and for the Windows stub. -/
theorem clear_then_process_makes_no_call (self : perf_event) (stub : win32.perf_event)
    (cookie : Nat) :
    (self.clear.process cookie).calls = [] ∧
    (self.clear.process cookie).corrupt = 0 ∧
    (self.clear.process cookie).self = self.clear ∧
    (stub.clear.process cookie).calls = [] ∧
    (stub.clear.process cookie).self = stub := by
  have hav : available self.clear = 0 := by
    simp [available, perf_event.clear]
  rw [process_of_available_zero _ _ hav]
  exact ⟨rfl, rfl, rfl, rfl, rfl⟩

end Perf
